import Mathlib

/-
Verification of the fold execution engine and greedy ensemble pipeline of
databoard (file databoard/generic.py), as a shallow embedding in Lean 4.

Conventions of the embedding:
* Python floats that flow through comparisons and arithmetic are modelled as
  rationals; raw score arrays that may hold non-finite entries are modelled by
  the type PyFloat below.
* File-system state is a pair of a directory list and an association list of
  files; paths are lists of components, os.path.join is list append.
* Python exceptions are modelled with Except over the PyError type; a
  try/except clause becomes a match on the Except value.
* numpy arrays become lists; numpy elementwise operations become maps over
  List.range with getD indexing.
-/

/-- Kinds of Python exceptions that the modelled code distinguishes:
IOError (raised by open on a missing file) and pickle.UnpicklingError
(raised by pickle.load on bytes that are not a valid pickle). -/
inductive PyError where
  | ioError : PyError
  | unpicklingError : PyError
deriving DecidableEq

/-- A Python float as seen by np.nan_to_num: either a finite value, NaN,
positive infinity or negative infinity. -/
inductive PyFloat where
  | finite : ℚ → PyFloat
  | nan : PyFloat
  | posInf : PyFloat
  | negInf : PyFloat
deriving DecidableEq

/-- The largest finite IEEE-754 double, 1.7976931348623157e308. This is the
value np.nan_to_num substitutes for positive infinity. -/
def MAX_FLOAT : ℚ := 17976931348623157 * (10 : ℚ) ^ 292

/-- Model of np.nan_to_num on one entry, following the numpy documentation:
NaN is replaced with zero, positive infinity with the largest finite float and
negative infinity with the most negative finite float; finite values pass
through unchanged. -/
def nan_to_num : PyFloat → ℚ
  | PyFloat.finite q => q
  | PyFloat.nan => 0
  | PyFloat.posInf => MAX_FLOAT
  | PyFloat.negInf => -MAX_FLOAT

/-- File-system state: the set of existing directories and the existing files
with their text contents. Paths are lists of path components. -/
structure FS where
  dirs : List (List String)
  files : List (List String × String)
deriving DecidableEq

/-- Embedding of get_f_dir (generic.py 101-105): joins the model path with the
artifact subdirectory and creates that directory when it does not exist yet
(os.mkdir guarded by os.path.exists). Returns the new file-system state and
the directory path. -/
def get_f_dir (fs : FS) (full_model_path : List String) (subdir : String) :
    FS × List String :=
  if full_model_path ++ [subdir] ∈ fs.dirs then (fs, full_model_path ++ [subdir])
  else (⟨fs.dirs ++ [full_model_path ++ [subdir]], fs.files⟩,
    full_model_path ++ [subdir])

/-- Embedding of get_f_name (generic.py 107-109): resolves the full artifact
file name, calling get_f_dir on the way, so resolution itself may create the
artifact-kind directory. -/
def get_f_name (fs : FS) (full_model_path : List String)
    (subdir f_name extension : String) : FS × List String :=
  ((get_f_dir fs full_model_path subdir).1,
    (get_f_dir fs full_model_path subdir).2 ++ [f_name ++ "." ++ extension])

/-- Association lookup of a file by its path in the file list. -/
def fs_lookup (files : List (List String × String)) (p : List String) :
    Option String :=
  match files.find? (fun e => decide (e.1 = p)) with
  | some e => some e.2
  | none => none

/-- Model of Python open(path) followed by read() in read mode: returns the
content when the file exists and raises IOError when it is absent. Opening
for read never modifies the file system. -/
def open_for_read (fs : FS) (p : List String) : Except PyError String :=
  match fs_lookup fs.files p with
  | some content => Except.ok content
  | none => Except.error PyError.ioError

/-- Reading one artifact the way leaderboard_execution_times does
(generic.py 507, 513): first resolve the file name with get_f_name (which may
create the kind directory), then open the resolved name for reading. Returns
the possibly changed file system and the read outcome. -/
def read_artifact (fs : FS) (mp : List String) (subdir name : String) :
    FS × Except PyError String :=
  ((get_f_name fs mp subdir name "csv").1,
    open_for_read (get_f_name fs mp subdir name "csv").1
      (get_f_name fs mp subdir name "csv").2)

/-- Model of pickle.load applied to the bytes of a file: decode is the pickle
codec; bytes that do not decode raise pickle.UnpicklingError, which is not an
IOError. -/
def pickle_load {B Mo : Type} (decode : B → Option Mo) (b : B) :
    Except PyError Mo :=
  match decode b with
  | some m => Except.ok m
  | none => Except.error PyError.unpicklingError

/-- Model of open(f_name) for the pickled model file: the file is either
present with contents b or absent, in which case open raises IOError. -/
def open_model_file {B : Type} (file : Option B) : Except PyError B :=
  match file with
  | some b => Except.ok b
  | none => Except.error PyError.ioError

/-- The model-loading part of test_on_fold (generic.py 350-353): open the
pickle file and unpickle it. -/
def load_pickled_model {B Mo : Type} (file : Option B)
    (decode : B → Option Mo) : Except PyError Mo :=
  (open_model_file file).bind (pickle_load decode)

/-- Embedding of test_on_fold (generic.py 334-360). The try block loads the
pickled trained model; the except clause catches exactly IOError and retrains
(retrained is the model produced by train_measure_and_pickle_on_fold); any
other exception, in particular UnpicklingError from a corrupt pickle file,
propagates to the caller. On success the trained model is tested. -/
def test_on_fold {B Mo R : Type} (file : Option B) (decode : B → Option Mo)
    (retrained : Mo) (test : Mo → R) : Except PyError R :=
  match load_pickled_model file decode with
  | Except.ok m => Except.ok (test m)
  | Except.error PyError.ioError => Except.ok (test retrained)
  | Except.error e => Except.error e

/-- The arrow marker searched for in formatted exception text
(generic.py 455). -/
def arrow_marker : List Char := "--->".toList

/-- Helper for str_rfind: scans candidate suffix start positions from n down
to 0 and returns the first (hence largest) position where pat is a prefix of
the corresponding suffix, or -1 when there is none. -/
def rfind_aux (s pat : List Char) : ℕ → ℤ
  | 0 => if pat <+: s then 0 else -1
  | n + 1 => if pat <+: s.drop (n + 1) then ((n + 1 : ℕ) : ℤ) else rfind_aux s pat n

/-- Model of Python str.rfind: the highest index at which pat occurs in s, or
-1 when pat does not occur. -/
def str_rfind (s pat : List Char) : ℤ := rfind_aux s pat s.length

/-- Embedding of the error-message truncation in run_models
(generic.py 454-458): cut = error_msg.rfind of the arrow marker; when cut > 0
the message is sliced from cut, otherwise the full message is kept. -/
def cut_error_msg (s : List Char) : List Char :=
  if 0 < str_rfind s arrow_marker then
    s.drop (str_rfind s arrow_marker).toNat
  else s

/-- One row of the models table, with the columns the core reads and writes:
team, model name, mutable state and timestamp. -/
structure ModelRow where
  team : String
  model : String
  state : String
  timestamp : ℕ
deriving DecidableEq

/-- Default row used with getD. -/
def default_row : ModelRow := ⟨ "", "", "", 0⟩

/-- Insertion into a timestamp-sorted list, ascending. -/
def insert_by_timestamp (r : ModelRow) : List ModelRow → List ModelRow
  | [] => [r]
  | x :: xs =>
    if r.timestamp ≤ x.timestamp then r :: x :: xs
    else x :: insert_by_timestamp r xs

/-- Model of models_df.sort on the timestamp column (generic.py 423):
sorts the rows by ascending timestamp. -/
def sort_by_timestamp : List ModelRow → List ModelRow
  | [] => []
  | x :: xs => insert_by_timestamp x (sort_by_timestamp xs)

/-- Body of the run_models loop for a single row (generic.py 433-458).
outcome r is none when run_on_folds returns normally for this row and
some msg when it raises an exception whose formatted text is msg (the except
clause catches every Exception). An ignored row is skipped unchanged; a
successful row gets the success state (past_participle); a failing row gets
the error state and the truncated message is persisted as the error text
artifact (second component). -/
def run_one (past_participle error_state : String)
    (outcome : ModelRow → Option (List Char)) (r : ModelRow) :
    ModelRow × Option (List Char) :=
  if r.state = "ignore" then (r, none)
  else
    match outcome r with
    | none => (⟨r.team, r.model, past_participle, r.timestamp⟩, none)
    | some msg =>
      (⟨r.team, r.model, error_state, r.timestamp⟩, some (cut_error_msg msg))

/-- The iteration of run_models over the sorted rows: every row is processed
in order, each through run_one, and the loop never stops early. -/
def run_models_loop (past_participle error_state : String)
    (outcome : ModelRow → Option (List Char)) :
    List ModelRow → List (ModelRow × Option (List Char))
  | [] => []
  | r :: rest =>
    run_one past_participle error_state outcome r ::
      run_models_loop past_participle error_state outcome rest

/-- Embedding of run_models (generic.py 406-458): sort by timestamp, then run
every submission, recording for each its final state and the persisted error
artifact if any. -/
def run_models (past_participle error_state : String)
    (outcome : ModelRow → Option (List Char)) (rows : List ModelRow) :
    List (ModelRow × Option (List Char)) :=
  run_models_loop past_participle error_state outcome (sort_by_timestamp rows)

/-- The data best_combine works over: the per-fold predictions list, the
domain combination rule (specific.prediction_type.combine with the
predictions list fixed) and the score against the fold ground truth
(specific.score with the ground truth fixed). S is the linearly ordered type
of score values. -/
structure EnsembleCtx (Pred S : Type) where
  preds : List Pred
  combine : List ℕ → Pred
  score : Pred → S

/-- One step of the candidate scan in best_combine (generic.py 654-661):
given the incumbent (best_predictions, best_index), combine with candidate i
appended; a strictly higher score replaces the incumbent. -/
def bestCombineStep {Pred S : Type} [LinearOrder S] (C : EnsembleCtx Pred S)
    (best_indexes : List ℕ) (st : Pred × ℤ) (i : ℕ) : Pred × ℤ :=
  if C.score st.1 < C.score (C.combine (best_indexes ++ [i])) then
    (C.combine (best_indexes ++ [i]), (i : ℤ))
  else st

/-- The return step of best_combine (generic.py 662-665): append the
recorded best index when one was recorded (best_index > -1), else return the
input index list unchanged. -/
def bc_finish {Pred : Type} (best_indexes : List ℕ) (final : Pred × ℤ) :
    List ℕ :=
  if -1 < final.2 then best_indexes ++ [final.2.toNat] else best_indexes

/-- Embedding of best_combine (generic.py 632-665): scan all candidate
indices left to right starting from the current combined prediction and
best_index = -1; after the scan, append the recorded index when one was
recorded, else return the input list unchanged. -/
def best_combine {Pred S : Type} [LinearOrder S] (C : EnsembleCtx Pred S)
    (best_indexes : List ℕ) : List ℕ :=
  bc_finish best_indexes
    ((List.range C.preds.length).foldl
      (bestCombineStep C best_indexes) (C.combine best_indexes, -1))

/-- Helper for argmax_first: left-to-right scan keeping the first maximum. -/
def argmax_aux {S : Type} [LinearOrder S] : List S → S → ℕ → ℕ → ℕ
  | [], _, best, _ => best
  | x :: xs, bv, best, k =>
    if bv < x then argmax_aux xs x k (k + 1) else argmax_aux xs bv best (k + 1)

/-- Model of np.argmax on a list: index of the first occurrence of the
maximum (0 on the empty list). -/
def argmax_first {S : Type} [LinearOrder S] : List S → ℕ
  | [] => 0
  | x :: xs => argmax_aux xs x 0 1

/-- Embedding of the greedy loop of get_best_index_list (generic.py 833-839):
while an iteration of best_combine grew the list and the list is shorter than
80, run best_combine again. -/
def ensemble_loop {Pred S : Type} [LinearOrder S] (C : EnsembleCtx Pred S)
    (l : List ℕ) : List ℕ :=
  if l.length < 80 then
    if (best_combine C l).length ≠ l.length then
      ensemble_loop C (best_combine C l)
    else best_combine C l
  else l
termination_by 80 - l.length
decreasing_by
  rename_i hlt hne
  have hc : best_combine C l = l ∨ ∃ j : ℕ, best_combine C l = l ++ [j] := by
    unfold best_combine bc_finish
    split
    · exact Or.inr ⟨_, rfl⟩
    · exact Or.inl rfl
  rcases hc with hc | ⟨j, hc⟩
  · exact absurd (congrArg List.length hc) hne
  · rw [hc, List.length_append]
    simp only [List.length_cons, List.length_nil]
    omega

/-- The best_index_list produced by get_best_index_list (generic.py 826-839):
start from the single best-scoring prediction and iterate the greedy loop. -/
def best_index_list_of {Pred S : Type} [LinearOrder S]
    (C : EnsembleCtx Pred S) : List ℕ :=
  ensemble_loop C [argmax_first (C.preds.map C.score)]

/-- A fold is a pair of a training index vector and a validation index
vector, as produced by the cross-validation object. -/
abbrev Fold : Type := List ℕ × List ℕ

/-- A file write: target path and payload. -/
abbrev FileWrite : Type := List String × String

/-- Applying a sequence of file writes to a store (path to content), later
writes overwriting earlier ones at the same path. -/
def apply_writes (ws : List FileWrite) (st : List String → Option String) :
    List String → Option String :=
  ws.foldl (fun s w => fun p => if p = w.1 then some w.2 else s p) st

/-- The writes of the sequential branch of run_on_folds (generic.py 190-192):
method is run on each fold in order with the model path, and its artifact
writes happen fold after fold. The parallel branch runs the same per-fold
units on a worker pool, so its overall write sequence is some interleaving,
that is, a permutation of the same multiset of writes. -/
def run_on_folds_writes (method : Fold → List String → List FileWrite)
    (full_model_path : List String) (cv : List Fold) : List FileWrite :=
  (cv.map (fun cv_is => method cv_is full_model_path)).flatten

/-- The identity calibrator, used only as the getD default for the
calibrators list. -/
def idq : ℚ → ℚ := fun q => q

/-- First stage of IsotonicCalibrator.predict_proba (generic.py 702-707),
the transposed calibrated matrix: for each class column of the raw score
matrix X (rows are data points), sanitize with np.nan_to_num and apply that
class calibrator elementwise. -/
def pp_t (cals : List (ℚ → ℚ)) (X : List (List PyFloat)) : List (List ℚ) :=
  (List.range (X.headD []).length).map (fun c =>
    (List.range X.length).map (fun p =>
      (cals.getD c idq) (nan_to_num ((X.getD p []).getD c (PyFloat.finite 0)))))

/-- The per-point sums np.sum(t, axis=0) of the calibrated transposed
matrix. -/
def pp_sum_rows (cals : List (ℚ → ℚ)) (X : List (List PyFloat)) : List ℚ :=
  (List.range X.length).map (fun p =>
    ((pp_t cals X).map (fun tc => tc.getD p 0)).sum)

/-- The np.divide broadcast of t by the per-point sums. -/
def pp_normalized (cals : List (ℚ → ℚ)) (X : List (List PyFloat)) :
    List (List ℚ) :=
  (pp_t cals X).map (fun tc =>
    (List.range X.length).map (fun p =>
      tc.getD p 0 / (pp_sum_rows cals X).getD p 0))

/-- Embedding of IsotonicCalibrator.predict_proba (generic.py 702-711):
calibrate per class (pp_t), sum per point (pp_sum_rows), divide elementwise
(pp_normalized, with no guard against a zero per-point sum) and transpose
back to one row per data point. -/
def predict_proba (cals : List (ℚ → ℚ)) (X : List (List PyFloat)) :
    List (List ℚ) :=
  (List.range X.length).map (fun p =>
    (pp_normalized cals X).map (fun tc => tc.getD p 0))

/-- The same pipeline on an already finite (rational) matrix, with no
sanitization step. -/
def pp_t_q (cals : List (ℚ → ℚ)) (X : List (List ℚ)) : List (List ℚ) :=
  (List.range (X.headD []).length).map (fun c =>
    (List.range X.length).map (fun p =>
      (cals.getD c idq) ((X.getD p []).getD c 0)))

/-- Per-point sums of the finite-matrix pipeline. -/
def pp_sum_rows_q (cals : List (ℚ → ℚ)) (X : List (List ℚ)) : List ℚ :=
  (List.range X.length).map (fun p =>
    ((pp_t_q cals X).map (fun tc => tc.getD p 0)).sum)

/-- Broadcast division of the finite-matrix pipeline. -/
def pp_normalized_q (cals : List (ℚ → ℚ)) (X : List (List ℚ)) :
    List (List ℚ) :=
  (pp_t_q cals X).map (fun tc =>
    (List.range X.length).map (fun p =>
      tc.getD p 0 / (pp_sum_rows_q cals X).getD p 0))

def predict_proba_q (cals : List (ℚ → ℚ)) (X : List (List ℚ)) :
    List (List ℚ) :=
  (List.range X.length).map (fun p =>
    (pp_normalized_q cals X).map (fun tc => tc.getD p 0))

/-- Elementwise np.nan_to_num over a whole matrix. -/
def sanitize_matrix (X : List (List PyFloat)) : List (List ℚ) :=
  X.map (fun row => row.map nan_to_num)

/-- Insertion into a sorted list of naturals, ascending. -/
def insert_nat_sorted (x : ℕ) : List ℕ → List ℕ
  | [] => [x]
  | y :: ys => if x ≤ y then x :: y :: ys else y :: insert_nat_sorted x ys

/-- Insertion sort on naturals. -/
def sort_nat : List ℕ → List ℕ
  | [] => []
  | x :: xs => insert_nat_sorted x (sort_nat xs)

/-- Model of np.sort(np.unique(y_list)) on integer labels. -/
def unique_sorted (y : List ℕ) : List ℕ := sort_nat y.dedup

/-- Embedding of IsotonicCalibrator.fit (generic.py 679-700) with the
isotonic regression fitting routine abstracted as fitIso (it lives in
databoard/isotonic.py and is treated as an opaque trainer from a sanitized
column and a 0/1 class indicator to a fitted regression function): for each
class column, fit on the np.nan_to_num-sanitized column against the
indicator of that class. -/
def IsotonicCalibrator_fit (fitIso : List ℚ → List ℕ → (ℚ → ℚ))
    (X : List (List PyFloat)) (y : List ℕ) : List (ℚ → ℚ) :=
  (List.range ((X.headD []).length)).map (fun c =>
    fitIso
      ((List.range X.length).map (fun p =>
        nan_to_num ((X.getD p []).getD c (PyFloat.finite 0))))
      (y.map (fun yy => if yy = (unique_sorted y).getD c 0 then 1 else 0)))

/-- The same fitting pipeline on an already finite matrix, with no
sanitization step. -/
def IsotonicCalibrator_fit_q (fitIso : List ℚ → List ℕ → (ℚ → ℚ))
    (X : List (List ℚ)) (y : List ℕ) : List (ℚ → ℚ) :=
  (List.range ((X.headD []).length)).map (fun c =>
    fitIso
      ((List.range X.length).map (fun p => (X.getD p []).getD c 0))
      (y.map (fun yy => if yy = (unique_sorted y).getD c 0 then 1 else 0)))

/-- Model of the Python int() conversion on a rational: truncation toward
zero. -/
def py_int (q : ℚ) : ℤ := if q < 0 then -((-q).floor) else q.floor

/-- Contribution of one stored timing to a leaderboard cell
(generic.py 506-517): a readable timing contributes the absolute value of its
parsed float, an unreadable one (IOError on open) contributes nothing. -/
def time_cell (t : Option ℚ) : ℚ :=
  match t with
  | some x => |x|
  | none => 0

/-- One fold iteration of the accumulation loop in
leaderboard_execution_times: every model cell receives the contribution of
its train-time and valid-time artifacts for this fold. -/
def exec_time_fold_step (m : ℕ) (tt vt : ℕ → ℕ → Option ℚ) (h : ℕ)
    (table : List (ℚ × ℚ)) : List (ℚ × ℚ) :=
  (List.range m).map (fun i =>
    ((table.getD i (0, 0)).1 + time_cell (tt i h),
     (table.getD i (0, 0)).2 + time_cell (vt i h)))

/-- The accumulation phase of leaderboard_execution_times
(generic.py 496-517): the per-model time columns start at zero and are
accumulated over all discovered folds only when the models table is
non-empty. tt i h and vt i h are the readable parsed contents of the
train-time and valid-time artifacts of model i on fold h (none when the file
cannot be opened). -/
def exec_time_table (hash_strings : List ℕ) (m : ℕ)
    (tt vt : ℕ → ℕ → Option ℚ) : List (ℚ × ℚ) :=
  if m ≠ 0 then
    hash_strings.foldl (fun tb h => exec_time_fold_step m tt vt h tb)
      (List.replicate m ((0 : ℚ), (0 : ℚ)))
  else List.replicate m ((0 : ℚ), (0 : ℚ))

/-- Embedding of leaderboard_execution_times (generic.py 493-525): the
accumulated columns are divided by the number of discovered folds and
truncated with the Python int() conversion. -/
def leaderboard_execution_times (hash_strings : List ℕ) (m : ℕ)
    (tt vt : ℕ → ℕ → Option ℚ) : List (ℤ × ℤ) :=
  (exec_time_table hash_strings m tt vt).map (fun ab =>
    (py_int (ab.1 / (hash_strings.length : ℚ)),
     py_int (ab.2 / (hash_strings.length : ℚ))))

/-
Theorems. Helper lemmas come first, then one theorem per claim with its
witness or counterexample.
-/

lemma getD_map_range {α : Type} {m c : ℕ} (f : ℕ → α) (d : α) (h : c < m) :
    ((List.range m).map f).getD c d = f c := by
  rw [List.getD_eq_getElem?_getD, List.getElem?_map, List.getElem?_range h]
  rfl

lemma getD_map_of_lt {α β : Type} {l : List α} {p : ℕ} (g : α → β) (d : α)
    (d2 : β) (h : p < l.length) : (l.map g).getD p d2 = g (l.getD p d) := by
  rw [List.getD_eq_getElem?_getD, List.getElem?_map,
    List.getElem?_eq_getElem h, List.getD_eq_getElem?_getD,
    List.getElem?_eq_getElem h]
  rfl

lemma sum_map_div {α : Type} (l : List α) (f : α → ℚ) (d : ℚ) :
    (l.map (fun x => f x / d)).sum = (l.map f).sum / d := by
  induction l with
  | nil => simp
  | cons x xs ih => simp [ih, add_div]

lemma bestCombine_foldl_spec {Pred S : Type} [LinearOrder S]
    (C : EnsembleCtx Pred S) (bi : List ℕ) (n : ℕ) :
    ((List.range n).foldl (bestCombineStep C bi) (C.combine bi, -1) =
        (C.combine bi, -1) ∧
      ∀ i < n, C.score (C.combine (bi ++ [i])) ≤ C.score (C.combine bi)) ∨
    (∃ j : ℕ, (List.range n).foldl (bestCombineStep C bi) (C.combine bi, -1) =
          (C.combine (bi ++ [j]), (j : ℤ)) ∧ j < n ∧
        C.score (C.combine bi) < C.score (C.combine (bi ++ [j])) ∧
        (∀ i < n,
          C.score (C.combine (bi ++ [i])) ≤ C.score (C.combine (bi ++ [j]))) ∧
        (∀ i < j,
          C.score (C.combine (bi ++ [i])) < C.score (C.combine (bi ++ [j])))) := by
  induction n with
  | zero =>
    left
    exact ⟨rfl, fun i hi => absurd hi (Nat.not_lt_zero i)⟩
  | succ n ih =>
    rw [List.range_succ, List.foldl_append, List.foldl_cons, List.foldl_nil]
    rcases ih with ⟨hst, hall⟩ | ⟨j, hst, hj, himp, hall, hstrict⟩
    · rw [hst]
      unfold bestCombineStep
      by_cases hb :
          C.score ((C.combine bi, (-1 : ℤ)).1) <
            C.score (C.combine (bi ++ [n]))
      · rw [if_pos hb]
        right
        refine ⟨n, rfl, Nat.lt_succ_self n, hb, ?_, ?_⟩
        · intro i hi
          rcases Nat.lt_succ_iff_lt_or_eq.mp hi with hi2 | hi2
          · exact le_trans (hall i hi2) (le_of_lt hb)
          · rw [hi2]
        · intro i hi
          exact lt_of_le_of_lt (hall i hi) hb
      · rw [if_neg hb]
        left
        refine ⟨rfl, fun i hi => ?_⟩
        rcases Nat.lt_succ_iff_lt_or_eq.mp hi with hi2 | hi2
        · exact hall i hi2
        · rw [hi2]
          exact not_lt.mp hb
    · rw [hst]
      unfold bestCombineStep
      by_cases hb :
          C.score ((C.combine (bi ++ [j]), (j : ℤ)).1) <
            C.score (C.combine (bi ++ [n]))
      · rw [if_pos hb]
        right
        refine ⟨n, rfl, Nat.lt_succ_self n, lt_trans himp hb, ?_, ?_⟩
        · intro i hi
          rcases Nat.lt_succ_iff_lt_or_eq.mp hi with hi2 | hi2
          · exact le_trans (hall i hi2) (le_of_lt hb)
          · rw [hi2]
        · intro i hi
          exact lt_of_le_of_lt (hall i hi) hb
      · rw [if_neg hb]
        right
        refine ⟨j, rfl, Nat.lt_succ_of_lt hj, himp, fun i hi => ?_, hstrict⟩
        rcases Nat.lt_succ_iff_lt_or_eq.mp hi with hi2 | hi2
        · exact hall i hi2
        · rw [hi2]
          exact not_lt.mp hb

lemma best_combine_characterization {Pred S : Type} [LinearOrder S]
    (C : EnsembleCtx Pred S) (bi : List ℕ) :
    (best_combine C bi = bi ↔
      ∀ i < C.preds.length,
        C.score (C.combine (bi ++ [i])) ≤ C.score (C.combine bi)) ∧
    (best_combine C bi = bi ∨
      ∃ j : ℕ, j < C.preds.length ∧ best_combine C bi = bi ++ [j] ∧
        C.score (C.combine bi) < C.score (C.combine (bi ++ [j])) ∧
        (∀ i < C.preds.length,
          C.score (C.combine (bi ++ [i])) ≤ C.score (C.combine (bi ++ [j]))) ∧
        (∀ i < j,
          C.score (C.combine (bi ++ [i])) < C.score (C.combine (bi ++ [j])))) := by
  rcases bestCombine_foldl_spec C bi C.preds.length with
    ⟨hst, hall⟩ | ⟨j, hst, hj, himp, hall, hstrict⟩
  · have hbc : best_combine C bi = bi := by
      unfold best_combine bc_finish
      rw [hst]
      norm_num
    exact ⟨⟨fun _ => hall, fun _ => hbc⟩, Or.inl hbc⟩
  · have hbc : best_combine C bi = bi ++ [j] := by
      unfold best_combine bc_finish
      rw [hst]
      have hpos : (-1 : ℤ) < (j : ℤ) := by
        exact lt_of_lt_of_le (by norm_num) (Int.ofNat_nonneg j)
      rw [if_pos hpos]
      simp
    constructor
    · constructor
      · intro heq
        exfalso
        have : (bi ++ [j]).length = bi.length := by
          rw [← hbc, heq]
        simp at this
      · intro hle
        exfalso
        exact absurd (hle j hj) (not_le.mpr himp)
    · exact Or.inr ⟨j, hj, hbc, himp, hall, hstrict⟩

/-- Claim C1: for every predictions list, ground truth and non-empty current
index list, best_combine either returns the input list unchanged, exactly
when no candidate appended combination scores strictly above the current
combined prediction, or appends exactly one index, namely the lowest
candidate index attaining the strictly highest appended-combination score
among all candidates, that score exceeding the current one. -/
theorem best_combine_greedy_step {Pred S : Type} [LinearOrder S]
    (C : EnsembleCtx Pred S) (best_indexes : List ℕ)
    (_hne : best_indexes ≠ []) :
    (best_combine C best_indexes = best_indexes ↔
      ∀ i < C.preds.length,
        C.score (C.combine (best_indexes ++ [i])) ≤
          C.score (C.combine best_indexes)) ∧
    (best_combine C best_indexes = best_indexes ∨
      ∃ j : ℕ, j < C.preds.length ∧ best_combine C best_indexes = best_indexes ++ [j] ∧
        C.score (C.combine best_indexes) <
          C.score (C.combine (best_indexes ++ [j])) ∧
        (∀ i < C.preds.length,
          C.score (C.combine (best_indexes ++ [i])) ≤
            C.score (C.combine (best_indexes ++ [j]))) ∧
        (∀ i < j,
          C.score (C.combine (best_indexes ++ [i])) <
            C.score (C.combine (best_indexes ++ [j])))) :=
  best_combine_characterization C best_indexes

/-- Witness for C1: a concrete three-model context whose score is constant,
so no addition strictly improves and the list comes back unchanged. -/
theorem best_combine_greedy_step_witness :
    best_combine
      (⟨[0, 1, 2], fun l => l.sum, fun _ => (0 : ℤ)⟩ : EnsembleCtx ℕ ℤ)
      [0] = [0] :=
  (best_combine_greedy_step
    (⟨[0, 1, 2], fun l => l.sum, fun _ => (0 : ℤ)⟩ : EnsembleCtx ℕ ℤ)
    [0] (by decide)).1.mpr (by decide)

lemma ensemble_loop_len {Pred S : Type} [LinearOrder S]
    (C : EnsembleCtx Pred S) :
    ∀ (n : ℕ) (l : List ℕ), 80 - l.length ≤ n →
      l.length ≤ (ensemble_loop C l).length ∧
        (ensemble_loop C l).length ≤ max l.length 80 := by
  intro n
  induction n with
  | zero =>
    intro l hl
    rw [ensemble_loop]
    have hge : ¬ l.length < 80 := by omega
    rw [if_neg hge]
    exact ⟨le_refl _, by omega⟩
  | succ n ih =>
    intro l hl
    rw [ensemble_loop]
    by_cases hlt : l.length < 80
    · rw [if_pos hlt]
      by_cases hne : (best_combine C l).length ≠ l.length
      · rw [if_pos hne]
        rcases (best_combine_characterization C l).2 with hc | ⟨j, hj, hc, _⟩
        · exact absurd (congrArg List.length hc) hne
        · have hlen : (best_combine C l).length = l.length + 1 := by
            rw [hc]
            simp
          have hrec := ih (best_combine C l) (by omega)
          exact ⟨by omega, by omega⟩
      · rw [if_neg hne]
        push_neg at hne
        exact ⟨le_of_eq hne.symm, by omega⟩
    · rw [if_neg hlt]
      exact ⟨le_refl _, by omega⟩

/-- Claim C4: the greedy selection loop of get_best_index_list terminates on
every input (ensemble_loop is a total function, defined by well-founded
recursion on 80 minus the list length); each best_combine iteration either
leaves the list unchanged or appends exactly one index while strictly
increasing the combined score; the list length never decreases across the
loop; and the final best_index_list, which starts from the single
best-scoring prediction, has length at least 1 and at most 80. -/
theorem get_best_index_list_loop_props {Pred S : Type} [LinearOrder S]
    (C : EnsembleCtx Pred S) :
    (∀ l : List ℕ, best_combine C l = l ∨
        ((best_combine C l).length = l.length + 1 ∧
          C.score (C.combine l) < C.score (C.combine (best_combine C l)))) ∧
    (∀ l : List ℕ, l.length ≤ (ensemble_loop C l).length) ∧
    1 ≤ (best_index_list_of C).length ∧ (best_index_list_of C).length ≤ 80 := by
  refine ⟨?_, ?_, ?_, ?_⟩
  · intro l
    rcases (best_combine_characterization C l).2 with hc | ⟨j, hj, hc, himp, _⟩
    · exact Or.inl hc
    · right
      constructor
      · rw [hc]
        simp
      · rw [hc]
        exact himp
  · intro l
    exact (ensemble_loop_len C 80 l (by omega)).1
  · have := (ensemble_loop_len C 80
      [argmax_first (C.preds.map C.score)] (by simp)).1
    simpa [best_index_list_of] using this
  · have := (ensemble_loop_len C 80
      [argmax_first (C.preds.map C.score)] (by simp)).2
    simp only [List.length_singleton] at this
    simpa [best_index_list_of] using this

/-- Claim C3 (evaluation of the code at the failing input): a model file that
is present but holds bytes the pickle codec cannot decode makes test_on_fold
raise UnpicklingError to its caller instead of falling back to retraining,
because the except clause catches only IOError. Here the file holds the
bytes [0], the codec decodes nothing, the retrained model is 7 and testing is
the identity. -/
theorem test_on_fold_corrupt_pickle_propagates :
    test_on_fold (some ([0] : List ℕ)) (fun _ => (none : Option ℕ)) 7
      (fun m => m) = Except.error PyError.unpicklingError := rfl

lemma rfind_aux_zero (s pat : List Char) :
    rfind_aux s pat 0 = if pat <+: s then 0 else -1 := rfl

lemma rfind_aux_succ (s pat : List Char) (n : ℕ) :
    rfind_aux s pat (n + 1) =
      if pat <+: s.drop (n + 1) then ((n + 1 : ℕ) : ℤ)
      else rfind_aux s pat n := rfl

lemma rfind_aux_spec (s pat : List Char) (n : ℕ) :
    (rfind_aux s pat n = -1 ∧ ∀ i ≤ n, ¬ pat <+: s.drop i) ∨
    (∃ j : ℕ, j ≤ n ∧ rfind_aux s pat n = (j : ℤ) ∧ (pat <+: s.drop j) ∧
      ∀ i ≤ n, (pat <+: s.drop i) → i ≤ j) := by
  induction n with
  | zero =>
    by_cases h : pat <+: s
    · right
      refine ⟨0, le_refl 0, ?_, ?_, ?_⟩
      · rw [rfind_aux_zero, if_pos h]
        norm_num
      · rw [List.drop_zero]
        exact h
      · intro i hi _
        omega
    · left
      constructor
      · rw [rfind_aux_zero, if_neg h]
      · intro i hi
        have hz : i = 0 := by omega
        rw [hz, List.drop_zero]
        exact h
  | succ n ih =>
    by_cases h : pat <+: s.drop (n + 1)
    · right
      refine ⟨n + 1, le_refl _, ?_, h, ?_⟩
      · rw [rfind_aux_succ, if_pos h]
      · intro i hi _
        exact hi
    · have hrec : rfind_aux s pat (n + 1) = rfind_aux s pat n := by
        rw [rfind_aux_succ, if_neg h]
      rcases ih with ⟨hv, hnone⟩ | ⟨j, hj, hv, hocc, hmax⟩
      · left
        refine ⟨by rw [hrec]; exact hv, ?_⟩
        intro i hi
        by_cases hi2 : i ≤ n
        · exact hnone i hi2
        · have hz : i = n + 1 := by omega
          rw [hz]
          exact h
      · right
        refine ⟨j, by omega, by rw [hrec]; exact hv, hocc, ?_⟩
        intro i hi hocc2
        by_cases hi2 : i ≤ n
        · exact hmax i hi2 hocc2
        · exfalso
          have hz : i = n + 1 := by omega
          rw [hz] at hocc2
          exact h hocc2

/-- Claim C8: the persisted error text is the suffix of the formatted
message starting at the last occurrence of the arrow marker when the marker
occurs (occurrences can only start at positions up to the message length),
and the full message when it does not occur. When the last occurrence is at
position 0 the rfind guard cut > 0 keeps the full message, which equals the
suffix from position 0. -/
theorem cut_error_msg_spec (s : List Char) :
    (∀ j : ℕ, j ≤ s.length → (arrow_marker <+: s.drop j) →
      (∀ i : ℕ, i ≤ s.length → (arrow_marker <+: s.drop i) → i ≤ j) →
      cut_error_msg s = s.drop j) ∧
    ((∀ i : ℕ, i ≤ s.length → ¬ (arrow_marker <+: s.drop i)) →
      cut_error_msg s = s) := by
  rcases rfind_aux_spec s arrow_marker s.length with
    ⟨hv, hnone⟩ | ⟨j0, hj0, hv, hocc, hmax⟩
  · constructor
    · intro j hj hocc _
      exact absurd hocc (hnone j hj)
    · intro _
      unfold cut_error_msg str_rfind
      rw [hv]
      norm_num
  · constructor
    · intro j hj hocc2 hmaxj
      have heq : j = j0 := le_antisymm (hmax j hj hocc2) (hmaxj j0 hj0 hocc)
      subst heq
      unfold cut_error_msg str_rfind
      rw [hv]
      by_cases hz : (0 : ℤ) < (j : ℤ)
      · rw [if_pos hz]
        norm_num
      · rw [if_neg hz]
        have hj0' : j = 0 := by omega
        rw [hj0', List.drop_zero]
    · intro hnone
      exact absurd hocc (hnone j0 hj0)

/-- Witness for C8: on the message ab--->cd--->ef the last marker occurrence
starts at position 8 and the persisted text is the suffix from there. -/
theorem cut_error_msg_spec_witness :
    cut_error_msg ("ab--->cd--->ef".toList) =
      ("ab--->cd--->ef".toList).drop 8 :=
  (cut_error_msg_spec ("ab--->cd--->ef".toList)).1 8 (by decide) (by decide)
    (by decide)

lemma insert_by_timestamp_perm (r : ModelRow) (l : List ModelRow) :
    List.Perm (insert_by_timestamp r l) (r :: l) := by
  induction l with
  | nil => exact List.Perm.refl _
  | cons x xs ih =>
    unfold insert_by_timestamp
    by_cases h : r.timestamp ≤ x.timestamp
    · rw [if_pos h]
    · rw [if_neg h]
      exact (ih.cons x).trans (List.Perm.swap r x xs)

lemma sort_by_timestamp_perm (l : List ModelRow) :
    List.Perm (sort_by_timestamp l) l := by
  induction l with
  | nil => exact List.Perm.refl _
  | cons x xs ih =>
    exact (insert_by_timestamp_perm x (sort_by_timestamp xs)).trans (ih.cons x)

lemma run_models_loop_length (pp es : String)
    (outcome : ModelRow → Option (List Char)) (l : List ModelRow) :
    (run_models_loop pp es outcome l).length = l.length := by
  induction l with
  | nil => rfl
  | cons r rest ih => simp [run_models_loop, ih]

lemma run_models_loop_getD (pp es : String)
    (outcome : ModelRow → Option (List Char)) (l : List ModelRow) :
    ∀ i : ℕ, i < l.length →
      (run_models_loop pp es outcome l).getD i (default_row, none) =
        run_one pp es outcome (l.getD i default_row) := by
  induction l with
  | nil =>
    intro i hi
    simp at hi
  | cons r rest ih =>
    intro i hi
    cases i with
    | zero => rfl
    | succ k =>
      show (run_models_loop pp es outcome rest).getD k (default_row, none) =
        run_one pp es outcome (rest.getD k default_row)
      exact ih k (by simpa using hi)

/-- Claim C2: run_models processes every submission of the batch: the output
records one result per input row; the processed order is a permutation (the
timestamp sort) of the input; an ignored row is left untouched; a row whose
fold execution returns normally gets the success state with no error
artifact; a row whose fold execution raises gets the error state together
with a persisted error artifact holding the truncated message. The
characterization of each position holds for every assignment of outcomes to
rows, so one row failing never changes how the following rows are run. -/
theorem run_models_batch_isolation (pp es : String)
    (outcome : ModelRow → Option (List Char)) (rows : List ModelRow) :
    (run_models pp es outcome rows).length = rows.length ∧
    List.Perm (sort_by_timestamp rows) rows ∧
    ∀ i : ℕ, i < rows.length →
      (((sort_by_timestamp rows).getD i default_row).state = "ignore" →
        (run_models pp es outcome rows).getD i (default_row, none) =
          ((sort_by_timestamp rows).getD i default_row, none)) ∧
      (((sort_by_timestamp rows).getD i default_row).state ≠ "ignore" →
        (outcome ((sort_by_timestamp rows).getD i default_row) = none →
          (run_models pp es outcome rows).getD i (default_row, none) =
            (⟨((sort_by_timestamp rows).getD i default_row).team,
              ((sort_by_timestamp rows).getD i default_row).model, pp,
              ((sort_by_timestamp rows).getD i default_row).timestamp⟩,
              none)) ∧
        (∀ msg : List Char,
          outcome ((sort_by_timestamp rows).getD i default_row) = some msg →
          (run_models pp es outcome rows).getD i (default_row, none) =
            (⟨((sort_by_timestamp rows).getD i default_row).team,
              ((sort_by_timestamp rows).getD i default_row).model, es,
              ((sort_by_timestamp rows).getD i default_row).timestamp⟩,
              some (cut_error_msg msg)))) := by
  have hperm := sort_by_timestamp_perm rows
  have hlen : (sort_by_timestamp rows).length = rows.length := hperm.length_eq
  refine ⟨?_, hperm, ?_⟩
  · rw [run_models, run_models_loop_length, hlen]
  · intro i hi
    have hgd : (run_models pp es outcome rows).getD i (default_row, none) =
        run_one pp es outcome ((sort_by_timestamp rows).getD i default_row) :=
      run_models_loop_getD pp es outcome (sort_by_timestamp rows) i
        (by omega)
    refine ⟨?_, ?_⟩
    · intro hig
      rw [hgd]
      unfold run_one
      rw [if_pos hig]
    · intro hig
      constructor
      · intro hout
        rw [hgd]
        unfold run_one
        rw [if_neg hig, hout]
      · intro msg hout
        rw [hgd]
        unfold run_one
        rw [if_neg hig, hout]

/-- Witness for C2: three submissions with ascending timestamps, the second
raising with message boom; the second ends in the error state with the
truncated message persisted. -/
theorem run_models_batch_isolation_witness :
    (run_models "trained" "error"
        (fun r => if r.timestamp = 2 then some ("boom".toList) else none)
        [⟨ "t1", "m1", "new", 1⟩, ⟨ "t2", "m2", "new", 2⟩,
         ⟨ "t3", "m3", "new", 3⟩]).getD 1 (default_row, none) =
      (⟨ "t2", "m2", "error", 2⟩, some (cut_error_msg ("boom".toList))) :=
  (((run_models_batch_isolation "trained" "error"
      (fun r => if r.timestamp = 2 then some ("boom".toList) else none)
      [⟨ "t1", "m1", "new", 1⟩, ⟨ "t2", "m2", "new", 2⟩,
       ⟨ "t3", "m3", "new", 3⟩]).2.2 1 (by decide)).2 (by decide)).2
    ("boom".toList) (by decide)

/-- Claim C5: running run_on_folds with the parallel toggle enabled produces
exactly the same artifact store as the strictly sequential fallback. A
parallel execution is modelled as any interleaving ws, that is any
permutation, of the per-fold write sequences; the hypothesis hagree states
that any two writes of the batch to the same path carry the same payload,
which holds for the fold-runner methods because every write target is scoped
by the fold identity hash and writes are deterministic per fold. -/
theorem run_on_folds_parallel_eq_sequential
    (method : Fold → List String → List FileWrite)
    (full_model_path : List String) (cv : List Fold) (ws : List FileWrite)
    (hsched : List.Perm ws (run_on_folds_writes method full_model_path cv))
    (hagree : ∀ w1 ∈ run_on_folds_writes method full_model_path cv,
      ∀ w2 ∈ run_on_folds_writes method full_model_path cv,
        w1.1 = w2.1 → w1.2 = w2.2)
    (st : List String → Option String) :
    apply_writes ws st =
      apply_writes (run_on_folds_writes method full_model_path cv) st := by
  unfold apply_writes
  refine hsched.foldl_eq' ?_ st
  intro x hx y hy z
  have hx2 : x ∈ run_on_folds_writes method full_model_path cv :=
    hsched.subset hx
  have hy2 : y ∈ run_on_folds_writes method full_model_path cv :=
    hsched.subset hy
  funext p
  have hcomm : x.1 = y.1 → x.2 = y.2 := hagree x hx2 y hy2
  by_cases hpx : p = x.1
  · by_cases hpy : p = y.1
    · have hxy : x.2 = y.2 := hcomm (by rw [← hpx, ← hpy])
      simp [hpx, hpy, hxy]
    · simp only [hpx, hpy]
      simp [hpy]
      intro h
      exact (hcomm h).symm
  · by_cases hpy : p = y.1
    · simp [hpx, hpy]
      by_cases hxy : y.1 = x.1
      · rw [if_pos hxy, hcomm hxy.symm]
      · rw [if_neg hxy]
    · simp [hpx, hpy]

/-- Witness for C5: two folds each writing one fold-scoped artifact; the
reversed schedule produces the same store as the sequential order. -/
theorem run_on_folds_parallel_eq_sequential_witness :
    apply_writes
        [( [ "models", "team", "tag", "f1"], "x"),
         ( [ "models", "team", "tag", "f0"], "x")]
        (fun _ => none) =
      apply_writes
        (run_on_folds_writes
          (fun cv_is mp => [(mp ++ [if cv_is.1 = [0] then "f0" else "f1"], "x")])
          [ "models", "team", "tag"] [([0], [1]), ([2], [3])])
        (fun _ => none) :=
  run_on_folds_parallel_eq_sequential
    (fun cv_is mp => [(mp ++ [if cv_is.1 = [0] then "f0" else "f1"], "x")])
    [ "models", "team", "tag"] [([0], [1]), ([2], [3])]
    [( [ "models", "team", "tag", "f1"], "x"),
     ( [ "models", "team", "tag", "f0"], "x")]
    (by decide) (by decide) (fun _ => none)

lemma predict_proba_row (cals : List (ℚ → ℚ)) (X : List (List PyFloat))
    (k : ℕ) (hk : (X.headD []).length = k) (p : ℕ) (hp : p < X.length) :
    (predict_proba cals X).getD p [] =
      (List.range k).map (fun c =>
        (cals.getD c idq)
            (nan_to_num ((X.getD p []).getD c (PyFloat.finite 0))) /
          ((List.range k).map (fun c2 =>
            (cals.getD c2 idq)
              (nan_to_num ((X.getD p []).getD c2 (PyFloat.finite 0))))).sum) := by
  have h1 : (predict_proba cals X).getD p [] =
      (pp_normalized cals X).map (fun tc => tc.getD p 0) := by
    unfold predict_proba
    exact getD_map_range _ _ hp
  have h2 : (pp_normalized cals X).map (fun tc => tc.getD p 0) =
      (pp_t cals X).map
        (fun tc => tc.getD p 0 / (pp_sum_rows cals X).getD p 0) := by
    unfold pp_normalized
    rw [List.map_map]
    refine List.map_congr_left ?_
    intro tc _
    exact getD_map_range _ _ hp
  have h3 : (pp_sum_rows cals X).getD p 0 =
      ((pp_t cals X).map (fun tc => tc.getD p 0)).sum := by
    unfold pp_sum_rows
    exact getD_map_range _ _ hp
  have h4 : (pp_t cals X).map (fun tc => tc.getD p 0) =
      (List.range k).map (fun c =>
        (cals.getD c idq)
          (nan_to_num ((X.getD p []).getD c (PyFloat.finite 0)))) := by
    unfold pp_t
    rw [hk, List.map_map]
    refine List.map_congr_left ?_
    intro c _
    exact getD_map_range _ _ hp
  have h5 : (pp_t cals X).map
      (fun tc => tc.getD p 0 / (pp_sum_rows cals X).getD p 0) =
      (List.range k).map (fun c =>
        (cals.getD c idq)
            (nan_to_num ((X.getD p []).getD c (PyFloat.finite 0))) /
          (pp_sum_rows cals X).getD p 0) := by
    unfold pp_t
    rw [hk, List.map_map]
    refine List.map_congr_left ?_
    intro c _
    simp only [Function.comp_apply]
    rw [getD_map_range _ _ hp]
  rw [h1, h2, h5, h3, h4]

/-- Claim C6: for a rectangular matrix of raw scores with k classes whose
calibrated values at point p have a nonzero sum, predict_proba applies each
class calibrator independently to its sanitized column entry and divides by
the per-point sum, so row p has k entries, entry c is the calibrated value
divided by the row sum, and the whole row sums to 1. The division carries no
guard: the nonzero-sum hypothesis is exactly what the code does not check. -/
theorem predict_proba_normalizes (cals : List (ℚ → ℚ))
    (X : List (List PyFloat)) (k : ℕ) (_hk : 0 < k)
    (hrect : ∀ row ∈ X, row.length = k) (_hcals : cals.length = k)
    (p : ℕ) (hp : p < X.length)
    (hsum : ((List.range k).map (fun c =>
        (cals.getD c idq)
          (nan_to_num ((X.getD p []).getD c (PyFloat.finite 0))))).sum ≠ 0) :
    ((predict_proba cals X).getD p []).length = k ∧
    (∀ c : ℕ, c < k → ((predict_proba cals X).getD p []).getD c 0 =
      (cals.getD c idq)
          (nan_to_num ((X.getD p []).getD c (PyFloat.finite 0))) /
        ((List.range k).map (fun c2 =>
          (cals.getD c2 idq)
            (nan_to_num ((X.getD p []).getD c2 (PyFloat.finite 0))))).sum) ∧
    ((predict_proba cals X).getD p []).sum = 1 := by
  have hhead : (X.headD []).length = k := by
    cases X with
    | nil => simp at hp
    | cons r rest => exact hrect r (List.mem_cons_self r rest)
  have hrow := predict_proba_row cals X k hhead p hp
  refine ⟨?_, ?_, ?_⟩
  · rw [hrow]
    simp
  · intro c hc
    rw [hrow]
    exact getD_map_range _ _ hc
  · rw [hrow]
    rw [sum_map_div]
    exact div_self hsum

/-- Witness for C6: two identity calibrators on the single point (1, 3); the
row sum hypothesis holds (1 + 3 = 4) and the output row sums to 1. -/
theorem predict_proba_normalizes_witness :
    ((predict_proba [idq, idq]
      [[PyFloat.finite 1, PyFloat.finite 3]]).getD 0 []).sum = 1 :=
  (predict_proba_normalizes [idq, idq]
    [[PyFloat.finite 1, PyFloat.finite 3]] 2 (by decide) (by decide)
    (by decide) 0 (by decide)
    (by norm_num [List.range_succ, idq, nan_to_num])).2.2

lemma getD_default_of_le {α : Type} {l : List α} {n : ℕ} (d : α)
    (h : l.length ≤ n) : l.getD n d = d := by
  rw [List.getD_eq_getElem?_getD, List.getElem?_eq_none h]
  rfl

lemma sanitize_matrix_length (X : List (List PyFloat)) :
    (sanitize_matrix X).length = X.length := by
  simp [sanitize_matrix]

lemma sanitize_matrix_headD (X : List (List PyFloat)) :
    ((sanitize_matrix X).headD []).length = (X.headD []).length := by
  cases X <;> simp [sanitize_matrix]

lemma sanitize_matrix_entry (X : List (List PyFloat)) (p c : ℕ) :
    ((sanitize_matrix X).getD p []).getD c 0 =
      nan_to_num ((X.getD p []).getD c (PyFloat.finite 0)) := by
  by_cases hp : p < X.length
  · have hrow : (sanitize_matrix X).getD p [] =
        (X.getD p []).map nan_to_num := by
      unfold sanitize_matrix
      exact getD_map_of_lt _ [] [] hp
    rw [hrow]
    by_cases hc : c < (X.getD p []).length
    · exact getD_map_of_lt nan_to_num (PyFloat.finite 0) 0 hc
    · have h1 : ((X.getD p []).map nan_to_num).getD c 0 = 0 :=
        getD_default_of_le 0 (by simpa using not_lt.mp hc)
      have h2 : (X.getD p []).getD c (PyFloat.finite 0) = PyFloat.finite 0 :=
        getD_default_of_le (PyFloat.finite 0) (not_lt.mp hc)
      rw [h1, h2]
      rfl
  · have h1 : (sanitize_matrix X).getD p [] = [] :=
      getD_default_of_le [] (by simpa [sanitize_matrix] using not_lt.mp hp)
    have h2 : X.getD p [] = [] := getD_default_of_le [] (not_lt.mp hp)
    rw [h1, h2]
    rfl

lemma pp_t_sanitize (cals : List (ℚ → ℚ)) (X : List (List PyFloat)) :
    pp_t cals X = pp_t_q cals (sanitize_matrix X) := by
  unfold pp_t pp_t_q
  rw [sanitize_matrix_headD, sanitize_matrix_length]
  refine List.map_congr_left ?_
  intro c _
  refine List.map_congr_left ?_
  intro p _
  rw [sanitize_matrix_entry]

lemma pp_sum_rows_sanitize (cals : List (ℚ → ℚ)) (X : List (List PyFloat)) :
    pp_sum_rows cals X = pp_sum_rows_q cals (sanitize_matrix X) := by
  unfold pp_sum_rows pp_sum_rows_q
  rw [sanitize_matrix_length, ← pp_t_sanitize]

lemma pp_normalized_sanitize (cals : List (ℚ → ℚ))
    (X : List (List PyFloat)) :
    pp_normalized cals X = pp_normalized_q cals (sanitize_matrix X) := by
  unfold pp_normalized pp_normalized_q
  rw [sanitize_matrix_length, ← pp_t_sanitize, ← pp_sum_rows_sanitize]

lemma fit_column_sanitize (X : List (List PyFloat)) (c : ℕ) :
    (List.range X.length).map (fun p =>
        nan_to_num ((X.getD p []).getD c (PyFloat.finite 0))) =
      (List.range X.length).map (fun p =>
        ((sanitize_matrix X).getD p []).getD c 0) :=
  List.map_congr_left (fun p _ => (sanitize_matrix_entry X p c).symm)

/-- Counterexample for claim C7 as stated: sanitization does not replace a
positive infinity with 0; np.nan_to_num turns it into the largest finite
float. -/
theorem nan_to_num_posInf_ne_zero : nan_to_num PyFloat.posInf ≠ 0 := by
  unfold nan_to_num MAX_FLOAT
  exact mul_ne_zero (by norm_num) (pow_ne_zero _ (by norm_num))

/-- Claim C7 (amended): before fitting and before predicting, the calibration
pipeline sanitizes every entry elementwise with np.nan_to_num; NaN entries
become 0, but positive and negative infinity become the extreme finite floats
rather than 0; finite entries pass through. The sanitized pipelines coincide
with the pure finite pipelines applied to the sanitized matrix, and
sanitization is total, so a non-finite input is never reported as an
error. -/
theorem calibration_sanitizes_nonfinite :
    nan_to_num PyFloat.nan = 0 ∧
    nan_to_num PyFloat.posInf = MAX_FLOAT ∧
    nan_to_num PyFloat.negInf = -MAX_FLOAT ∧
    (∀ q : ℚ, nan_to_num (PyFloat.finite q) = q) ∧
    (∀ (cals : List (ℚ → ℚ)) (X : List (List PyFloat)),
      predict_proba cals X = predict_proba_q cals (sanitize_matrix X)) ∧
    (∀ (fitIso : List ℚ → List ℕ → (ℚ → ℚ)) (X : List (List PyFloat))
      (y : List ℕ),
      IsotonicCalibrator_fit fitIso X y =
        IsotonicCalibrator_fit_q fitIso (sanitize_matrix X) y) := by
  refine ⟨rfl, rfl, rfl, fun q => rfl, ?_, ?_⟩
  · intro cals X
    unfold predict_proba predict_proba_q
    rw [sanitize_matrix_length, ← pp_normalized_sanitize]
  · intro fitIso X y
    unfold IsotonicCalibrator_fit IsotonicCalibrator_fit_q
    rw [sanitize_matrix_headD]
    refine List.map_congr_left ?_
    intro c _
    rw [sanitize_matrix_length, ← fit_column_sanitize]

/-- Counterexample for claim C9 as stated: merely resolving an artifact file
name for a read does not leave the file system unchanged; on an empty file
system, reading the train_time artifact creates the train_time kind
directory as a side effect of name resolution. -/
theorem read_artifact_creates_directory :
    (read_artifact ⟨[], []⟩ [ "models", "team", "tag"] "train_time"
      "abc").1 ≠ (⟨[], []⟩ : FS) := by
  decide

/-- Claim C9 (amended): the artifact-kind subdirectory is created on the
first resolution of an artifact file name of that kind, whether the
resolution serves a write or a read; when the directory already exists the
file system is untouched. Reading an absent artifact raises IOError, never
creates the artifact file or returns a default, and never modifies the file
set; the only possible side effect of a read is the directory creation done
by name resolution. -/
theorem read_artifact_frame (fs : FS) (mp : List String)
    (subdir name : String) :
    (read_artifact fs mp subdir name).1.files = fs.files ∧
    (read_artifact fs mp subdir name).1.dirs =
      (if mp ++ [subdir] ∈ fs.dirs then fs.dirs
       else fs.dirs ++ [mp ++ [subdir]]) ∧
    (mp ++ [subdir] ∈ fs.dirs → (read_artifact fs mp subdir name).1 = fs) ∧
    (fs_lookup fs.files (mp ++ [subdir] ++ [name ++ "." ++ "csv"]) = none →
      (read_artifact fs mp subdir name).2 = Except.error PyError.ioError) ∧
    (∀ content : String,
      fs_lookup fs.files (mp ++ [subdir] ++ [name ++ "." ++ "csv"]) =
        some content →
      (read_artifact fs mp subdir name).2 = Except.ok content) := by
  unfold read_artifact get_f_name get_f_dir
  by_cases hmem : mp ++ [subdir] ∈ fs.dirs
  · rw [if_pos hmem]
    refine ⟨rfl, by rw [if_pos hmem], fun _ => rfl, ?_, ?_⟩
    · intro hlook
      unfold open_for_read
      rw [hlook]
    · intro content hlook
      unfold open_for_read
      rw [hlook]
  · rw [if_neg hmem]
    refine ⟨rfl, by rw [if_neg hmem], fun h => absurd h hmem, ?_, ?_⟩
    · intro hlook
      unfold open_for_read
      rw [hlook]
    · intro content hlook
      unfold open_for_read
      rw [hlook]

/-- Witness for C9: on a file system already holding the train_time kind
directory but no timing file, the read leaves the file system unchanged and
raises IOError. -/
theorem read_artifact_frame_witness :
    (read_artifact ⟨[[ "models", "team", "tag", "train_time"]], []⟩
        [ "models", "team", "tag"] "train_time" "abc").1 =
      (⟨[[ "models", "team", "tag", "train_time"]], []⟩ : FS) ∧
    (read_artifact ⟨[[ "models", "team", "tag", "train_time"]], []⟩
        [ "models", "team", "tag"] "train_time" "abc").2 =
      Except.error PyError.ioError :=
  ⟨(read_artifact_frame ⟨[[ "models", "team", "tag", "train_time"]], []⟩
      [ "models", "team", "tag"] "train_time" "abc").2.2.1 (by decide),
   (read_artifact_frame ⟨[[ "models", "team", "tag", "train_time"]], []⟩
      [ "models", "team", "tag"] "train_time" "abc").2.2.2.1 (by decide)⟩

lemma time_cell_abs (t : Option ℚ) : time_cell t = |t.getD 0| := by
  cases t <;> simp [time_cell]

lemma exec_time_fold_step_length (m : ℕ) (tt vt : ℕ → ℕ → Option ℚ) (h : ℕ)
    (tb : List (ℚ × ℚ)) : (exec_time_fold_step m tt vt h tb).length = m := by
  simp [exec_time_fold_step]

lemma exec_time_foldl_getD (m : ℕ) (tt vt : ℕ → ℕ → Option ℚ)
    (folds : List ℕ) :
    ∀ (init : List (ℚ × ℚ)) (i : ℕ), i < m →
      (folds.foldl (fun tb h => exec_time_fold_step m tt vt h tb)
          init).getD i (0, 0) =
        ((init.getD i (0, 0)).1 +
            (folds.map (fun h => time_cell (tt i h))).sum,
         (init.getD i (0, 0)).2 +
            (folds.map (fun h => time_cell (vt i h))).sum) := by
  induction folds with
  | nil =>
    intro init i hi
    simp
  | cons h hs ih =>
    intro init i hi
    rw [List.foldl_cons, ih (exec_time_fold_step m tt vt h init) i hi]
    have hstep : (exec_time_fold_step m tt vt h init).getD i (0, 0) =
        ((init.getD i (0, 0)).1 + time_cell (tt i h),
         (init.getD i (0, 0)).2 + time_cell (vt i h)) := by
      unfold exec_time_fold_step
      exact getD_map_range _ _ hi
    rw [hstep]
    simp [add_assoc]

lemma exec_time_foldl_length (m : ℕ) (tt vt : ℕ → ℕ → Option ℚ)
    (folds : List ℕ) :
    ∀ init : List (ℚ × ℚ), init.length = m →
      (folds.foldl (fun tb h => exec_time_fold_step m tt vt h tb)
        init).length = m := by
  induction folds with
  | nil =>
    intro init h
    exact h
  | cons h hs ih =>
    intro init hlen
    rw [List.foldl_cons]
    exact ih _ (exec_time_fold_step_length m tt vt h init)

/-- Claim C10: for every model, the execution-time leaderboard reports as
train time and test time the sum over discovered folds of the absolute value
of each readable stored timing, an unreadable timing contributing 0, divided
by the number of folds and truncated toward zero to an integer; so negative
stored timings contribute their magnitude positively and the reported means
are whole numbers (the output type is a pair of integers). -/
theorem leaderboard_execution_times_mean (hash_strings : List ℕ) (m : ℕ)
    (tt vt : ℕ → ℕ → Option ℚ) (_hfolds : 0 < hash_strings.length) :
    (leaderboard_execution_times hash_strings m tt vt).length = m ∧
    ∀ i : ℕ, i < m →
      (leaderboard_execution_times hash_strings m tt vt).getD i (0, 0) =
        (py_int ((hash_strings.map (fun h => |(tt i h).getD 0|)).sum /
           (hash_strings.length : ℚ)),
         py_int ((hash_strings.map (fun h => |(vt i h).getD 0|)).sum /
           (hash_strings.length : ℚ))) := by
  have htable_len : (exec_time_table hash_strings m tt vt).length = m := by
    unfold exec_time_table
    by_cases hm : m ≠ 0
    · rw [if_pos hm]
      exact exec_time_foldl_length m tt vt hash_strings _ (by simp)
    · rw [if_neg hm]
      simp
  refine ⟨?_, ?_⟩
  · unfold leaderboard_execution_times
    rw [List.length_map, htable_len]
  · intro i hi
    have hm : m ≠ 0 := by omega
    have htab : (exec_time_table hash_strings m tt vt).getD i (0, 0) =
        ((hash_strings.map (fun h => time_cell (tt i h))).sum,
         (hash_strings.map (fun h => time_cell (vt i h))).sum) := by
      unfold exec_time_table
      rw [if_pos hm,
        exec_time_foldl_getD m tt vt hash_strings _ i hi]
      have hrep : (List.replicate m ((0 : ℚ), (0 : ℚ))).getD i (0, 0) =
          ((0 : ℚ), (0 : ℚ)) := by
        rw [List.getD_eq_getElem?_getD, List.getElem?_replicate, if_pos hi]
        rfl
      rw [hrep]
      simp
    unfold leaderboard_execution_times
    rw [getD_map_of_lt _ ((0 : ℚ), (0 : ℚ)) ((0 : ℤ), (0 : ℤ))
      (by rw [htable_len]; exact hi), htab]
    have habs1 : hash_strings.map (fun h => time_cell (tt i h)) =
        hash_strings.map (fun h => |(tt i h).getD 0|) :=
      List.map_congr_left (fun h _ => time_cell_abs _)
    have habs2 : hash_strings.map (fun h => time_cell (vt i h)) =
        hash_strings.map (fun h => |(vt i h).getD 0|) :=
      List.map_congr_left (fun h _ => time_cell_abs _)
    rw [habs1, habs2]

/-- Witness for C10: two folds, two models; model 0 has a stored train
timing of -3 on each fold and no readable valid timing, so its reported
times are the truncated means of the absolute values. -/
theorem leaderboard_execution_times_mean_witness :
    (leaderboard_execution_times [0, 1] 2
        (fun i _ => if i = 0 then some (-(3 : ℚ)) else none)
        (fun _ _ => none)).getD 0 (0, 0) =
      (py_int ((([0, 1] : List ℕ).map (fun h =>
          |((fun (i : ℕ) (_ : ℕ) =>
              if i = 0 then some (-(3 : ℚ)) else none) 0 h).getD 0|)).sum /
         (([0, 1] : List ℕ).length : ℚ)),
       py_int ((([0, 1] : List ℕ).map (fun h =>
          |((fun (_ : ℕ) (_ : ℕ) => (none : Option ℚ)) 0 h).getD 0|)).sum /
         (([0, 1] : List ℕ).length : ℚ))) :=
  (leaderboard_execution_times_mean [0, 1] 2
    (fun i _ => if i = 0 then some (-(3 : ℚ)) else none)
    (fun _ _ => none) (by decide)).2 0 (by decide)
